import Mathlib

/-!
Verification of the event recommendation engine of the content service
(`app/services/recommender.py`).

The engine works on JSON-like documents fetched from a document store.  We
embed the dynamic Python values in the inductive type `Val`, embed each
function of `recommender.py` as a Lean function over `Val`-shaped data, make
the store interactions explicit parameters (the collections, the per-document
fetch results, and the point at which a streamed query may raise), and prove
the spec's claims about those definitions.

Numbers are embedded as rationals: the Python float literals 0.1 and 1.5 are
rendered as the rationals 1/10 and 3/2.  The Python datetime library is
abstracted: instants are integers, `isoformat` is an injective rendering of an
instant into a string and `parseIso` (the model of `datetime.fromisoformat`
composed with the source's Z-replacement) is its partial inverse; only
injectivity and the partial-inverse property are ever used.
-/

namespace ContentService

/-- A JSON-like Python value as stored in and returned from the document
store: `none`, booleans, numbers (ints and floats, embedded as rationals),
strings, datetime/timestamp-like objects (embedded by their instant), dicts
with string keys (embedded as association lists, first match wins, mirroring
unique-key Python dicts) and lists. -/
inductive Val where
  | null
  | b (x : Bool)
  | num (x : ℚ)
  | s (x : String)
  | time (t : Int)
  | dict (entries : List (String × Val))
  | arr (xs : List Val)

/-- Entries of a Python dict with string keys. -/
abbrev Entries := List (String × Val)

/-- Python truthiness of a value: None, False, 0, empty string, empty dict and
empty list are falsy; datetime objects are always truthy. -/
def truthy : Val → Bool
  | .null => false
  | .b x => x
  | .num x => !(x == 0)
  | .s x => !(x == "")
  | .time _ => true
  | .dict kvs => !kvs.isEmpty
  | .arr xs => !xs.isEmpty

/-- Python `d.get(k)`: the value under `k`, or None when absent. -/
def pyGet (e : Entries) (k : String) : Val := (List.lookup k e).getD .null

/-- Python `a or b`: `a` when truthy, else `b`. -/
def pyOr (a bv : Val) : Val := if truthy a then a else bv

/-- Abstraction of the Python datetime library's ISO-8601 rendering
(`datetime.isoformat`): an injective, computable encoding of an instant as a
string.  The engine only depends on the rendering being injective with the
partial inverse `parseIso`, so the concrete encoding is immaterial. -/
def isoformat : Int → String
  | .ofNat n => ⟨'T' :: List.replicate n '0'⟩
  | .negSucc n => ⟨'T' :: '-' :: List.replicate n '0'⟩

/-- Abstraction of `datetime.fromisoformat` (after the source's replacement of
a trailing Z): the partial inverse of `isoformat`, returning `none` on strings
outside its range — Python raises ValueError there and the source maps that to
None. -/
def parseIso (str : String) : Option Int :=
  match str.data with
  | [] => none
  | c :: rest =>
    if c == 'T' then
      match rest with
      | [] => some 0
      | d :: ds =>
        if d == '-' then
          if ds.all (fun x => x == '0') then some (Int.negSucc ds.length) else none
        else
          if (d :: ds).all (fun x => x == '0') then some (Int.ofNat (ds.length + 1))
          else none
    else none

mutual
/-- Embedding of `_serialize_value` (recommender.py lines 29–41): recursively
convert store values to JSON-safe ones.  The source's two timestamp branches
(values with an isoformat attribute, values with a timestamp attribute) both
render the instant as an ISO string and are covered by the `time` case. -/
def serialize_value : Val → Val
  | .null => .null
  | .b x => .b x
  | .num x => .num x
  | .s x => .s x
  | .time t => .s (isoformat t)
  | .dict kvs => .dict (serializeEntries kvs)
  | .arr xs => .arr (serializeList xs)

/-- The dict branch of `_serialize_value`: same keys, values serialized. -/
def serializeEntries : Entries → Entries
  | [] => []
  | (k, v) :: rest => (k, serialize_value v) :: serializeEntries rest

/-- The list branch of `_serialize_value`: elementwise serialization. -/
def serializeList : List Val → List Val
  | [] => []
  | v :: rest => serialize_value v :: serializeList rest
end

/-- Embedding of `_parse_event_date` (lines 44–58): the "date" field parsed to
an instant.  Absent, None and non-date-shaped values parse to `none`; datetime
and timestamp-like values yield their instant; strings go through the ISO
parser, `none` on failure. -/
def parseEventDate (e : Entries) : Option Int :=
  match List.lookup "date" e with
  | none => none
  | some .null => none
  | some (.time t) => some t
  | some (.s str) => parseIso str
  | some _ => none

/-- A document of the events collection: the store-assigned document id and
the payload returned by to_dict (the source guards a None payload). -/
structure EventDoc where
  id : String
  data : Option Entries

/-- Result of a single-document fetch: the document is missing, was found with
the given payload, or the store raised during the fetch. -/
inductive DocResult where
  | missing
  | found (data : Entries)
  | error

/-- The store-side equality filter of the events query (line 101,
`where status == active`): documents whose "status" field is the string
"active". -/
def statusActive (d : EventDoc) : Bool :=
  match d.data with
  | some data =>
    match List.lookup "status" data with
    | some (.s st) => st == "active"
    | _ => false
  | none => false

/-- The identity test `data.get("isPublic") is False` of line 108: only an
explicitly stored boolean False counts. -/
def isPublicFalse (data : Entries) : Bool :=
  match List.lookup "isPublic" data with
  | some (.b false) => true
  | _ => false

/-- The dict literal of line 113, id first then the payload spread over it:
a payload's own "id" entry overrides the store-assigned document id.  With
unique-key payloads this association list has the same lookups as the Python
dict. -/
def mergeIdData (docId : String) (data : Entries) : Entries :=
  ("id", (List.lookup "id" data).getD (.s docId)) :: data.filter (fun kv => kv.1 != "id")

/-- One iteration of the streaming loop of lines 104–113: skip docs with a
None payload, docs stored with isPublic False, and docs whose parsed date is
strictly before now; otherwise keep the id-merged payload. -/
def processDoc (now : Int) (d : EventDoc) : Option Entries :=
  match d.data with
  | none => none
  | some data =>
    if isPublicFalse data then none
    else
      match parseEventDate data with
      | some t => if t < now then none else some (mergeIdData d.id data)
      | none => some (mergeIdData d.id data)

/-- The part of the events query stream actually yielded to the loop: the
status-filtered collection capped at `lim` rows; when the store raises after
yielding `k` documents (`errorAfter = some k`) only that prefix is seen — the
source's except clause merely logs, keeping whatever was already appended. -/
def streamSeen (coll : List EventDoc) (lim : Nat) (errorAfter : Option Nat) : List EventDoc :=
  match errorAfter with
  | none => (coll.filter statusActive).take lim
  | some k => ((coll.filter statusActive).take lim).take k

/-- Embedding of `get_upcoming_events` (lines 92–116) over an explicit events
collection and an explicit error point of the streamed query. -/
def get_upcoming_events (now : Int) (coll : List EventDoc) (lim : Nat)
    (errorAfter : Option Nat) : List Entries :=
  (streamSeen coll lim errorAfter).filterMap (processDoc now)

/-- Embedding of `get_user_interest_profile` (lines 61–73) over the explicit
fetch result: None when the document is missing, when its payload is falsy
(empty), or when the store raised. -/
def get_user_interest_profile (store : String → DocResult) (uid : String) : Option Entries :=
  match store uid with
  | .missing => none
  | .error => none
  | .found data => if data.isEmpty then none else some data

/-- Embedding of `get_event_analytics` (lines 76–89): at most 50 ids are
looked up; a missing document, a falsy payload, a raising fetch, or a
non-string id (document lookup raises, caught by the per-id try) all just omit
that id from the result. -/
def get_event_analytics (store : String → DocResult) (event_ids : List Val) :
    List (String × Entries) :=
  (event_ids.take 50).filterMap (fun v =>
    match v with
    | .s eid =>
      match store eid with
      | .found data => if data.isEmpty then none else some (eid, data)
      | _ => none
    | _ => none)

/-- The id list of line 178: the truthy "id" values of the candidate pool. -/
def candidateIds (events : List Entries) : List Val :=
  events.filterMap (fun e =>
    let v := pyGet e "id"
    if truthy v then some v else none)

/-- Python `float(x)` on values appearing as weights and counters: numbers map
to themselves, booleans to 0/1.  Other values raise (or, for numeric strings,
parse) in Python; no claim involves them and they are mapped to 0 here. -/
def valFloat : Val → ℚ
  | .num q => q
  | .b bb => if bb then 1 else 0
  | _ => 0

/-- `float(a.get(k, 0))` for the numeric fields of profiles and analytics. -/
def getNum (a : Entries) (k : String) : ℚ := valFloat ((List.lookup k a).getD (.num 0))

/-- `profile.get(k) or …` used as a mapping: the stored dict, or empty when the
field is absent, None or otherwise falsy.  A truthy non-dict value would make
the source's membership test raise; it is mapped to the empty mapping here and
no claim involves it. -/
def getDict (m : Entries) (k : String) : Entries :=
  match List.lookup k m with
  | some (.dict d) => d
  | _ => []

/-- The category term of `score_event_with_profile` (lines 126–129): the
event's category — field "category", else (falsy fallback) "categoryName" —
looked up in topCategories; a non-string or falsy category matches no key. -/
def catTerm (event profile : Entries) : ℚ :=
  let top := getDict profile "topCategories"
  let cat := pyOr (pyGet event "category") (pyGet event "categoryName")
  if truthy cat then
    match cat with
    | .s c =>
      match List.lookup c top with
      | some v => valFloat v
      | none => 0
    | _ => 0
  else 0

/-- Line 132's fallback city string: the prefix of the "location" string
before the first comma, stripped of surrounding whitespace. -/
def locationCity (event : Entries) : String :=
  ((match pyOr (pyGet event "location") (.s "") with
    | .s s0 => s0
    | _ => "").splitOn ",").headD "" |>.trim

/-- The city value of line 132: the "city" field when truthy, else the
location-derived string. -/
def cityVal (event : Entries) : Val :=
  if truthy (pyGet event "city") then pyGet event "city" else .s (locationCity event)

/-- The city term of `score_event_with_profile` (lines 131–134). -/
def cityTerm (event profile : Entries) : ℚ :=
  let top := getDict profile "topCities"
  let city := cityVal event
  if truthy city then
    match city with
    | .s c =>
      match List.lookup c top with
      | some v => valFloat v
      | none => 0
    | _ => 0
  else 0

/-- Python `x == 0` on a stored value: numeric zero, and False (a bool is an
int in Python).  None, strings and containers compare unequal. -/
def pyEqZero : Val → Bool
  | .num q => q == 0
  | .b bb => !bb
  | _ => false

/-- The nested free-tier test of lines 139–142: ticketTypes is a dict whose
"free" entry is a dict whose "price" equals 0.  (A non-dict "free" entry would
raise in the source; no claim involves it.) -/
def freeTierZero (event : Entries) : Bool :=
  match List.lookup "ticketTypes" event with
  | some (.dict tt) =>
    match List.lookup "free" tt with
    | some (.dict ft) => pyEqZero (pyGet ft "price")
    | _ => false
  | _ => false

/-- The price-preference term of `score_event_with_profile` (lines 136–146):
only applies when the price is non-None and a preference is set; +5 for a
"free" preference on a free event, +2 for a "paid" preference on a non-free
event, 0 otherwise.  The source's is_free local is inlined at its two use
sites. -/
def priceTerm (event profile : Entries) : ℚ :=
  match pyGet event "price" with
  | .null => 0
  | price =>
    if truthy (pyGet profile "pricePreference") then
      match pyGet profile "pricePreference" with
      | .s "free" => if pyEqZero price || freeTierZero event then 5 else 0
      | .s "paid" => if !(pyEqZero price || freeTierZero event) then 2 else 0
      | _ => 0
    else 0

/-- Embedding of `score_event_with_profile` (lines 119–148).  The source
accumulates `score += …` over the three independent terms, which is exactly
their sum. -/
def score_event_with_profile (event profile : Entries) : ℚ :=
  catTerm event profile + cityTerm event profile + priceTerm event profile

/-- Embedding of `score_event_trending` (lines 151–163): 0 for a falsy id or
a missing/falsy analytics entry, otherwise the weighted engagement sum with
absent counters defaulting to 0. -/
def score_event_trending (event : Entries) (analytics : List (String × Entries)) : ℚ :=
  let eid := pyGet event "id"
  if !truthy eid then 0
  else
    match eid with
    | .s sid =>
      match List.lookup sid analytics with
      | some a =>
        if a.isEmpty then 0
        else
          getNum a "views" * (1/10) + getNum a "favorites" * 2 +
            getNum a "shares" * (3/2) + getNum a "conversionRate" * 10
      | none => 0
    | _ => 0

/-- The ranking timestamp of the sort key of lines 191–195: the parsed date,
or positive infinity for an event with no parsable date. -/
def tsOf (e : Entries) : WithTop ℚ :=
  match parseEventDate e with
  | some t => ((t : ℚ) : WithTop ℚ)
  | none => ⊤

/-- The comparator realising `sort(key=(score, -ts), reverse=True)`: an
element sorts no later than another when its score is larger, or the scores
are equal and its ranking timestamp is no later. -/
def rankLE (a bv : Entries × ℚ) : Bool :=
  decide (bv.2 < a.2) || (decide (a.2 = bv.2) && decide (tsOf a.1 ≤ tsOf bv.1))

/-- The comparator as a relation, for use with the sort. -/
def RankBefore (a bv : Entries × ℚ) : Prop := rankLE a bv = true

instance : DecidableRel RankBefore := fun a bv =>
  inferInstanceAs (Decidable (rankLE a bv = true))

/-- The sort of lines 190–213 (identical in both branches): Python's
list.sort(key=(score, -ts), reverse=True), a stable sort by score descending
with ties by ranking timestamp ascending.  Stability together with
sortedness under the total preorder determines the output uniquely, so the
sort is modelled by a stable sort (insertion sort) under the comparator. -/
def rankScored (scored : List (Entries × ℚ)) : List (Entries × ℚ) :=
  scored.insertionSort RankBefore

/-- The dict literal of line 218, the payload spread first and "id" then set
to its own looked-up value: a no-op on lookups, modelled with Python's update
semantics (overwrite in place when present, append when absent). -/
def resetId (e : Entries) : Entries :=
  if e.any (fun kv => kv.1 == "id") then
    e.map (fun kv => if kv.1 == "id" then ("id", (List.lookup "id" e).getD .null) else kv)
  else e ++ [("id", (List.lookup "id" e).getD .null)]

/-- One retained event as returned to the caller (lines 217–220): the id-reset
payload, serialized. -/
def outputEvent (e : Entries) : Val := serialize_value (.dict (resetId e))

/-- Embedding of `_serialize_doc` (lines 18–26): None for a missing document
or a None payload, else the serialized payload with the "id" dict-literal
override — a payload's own "id" wins over the store-assigned document id. -/
def serialize_doc (present : Bool) (docId : String) (data : Option Entries) : Option Entries :=
  if !present then none
  else
    match data with
    | none => none
    | some d => some (mergeIdData docId (serializeEntries d))

/-- The external world of one `recommend_events` call: the events collection,
the point (if any) at which the streamed events query raises, the profile and
analytics stores, and the two instants captured by the source (line 94 inside
`get_upcoming_events`, line 181 inside `recommend_events`). -/
structure World where
  eventsColl : List EventDoc
  eventsError : Option Nat
  profileStore : String → DocResult
  analyticsStore : String → DocResult
  nowFetch : Int
  now : Int

/-- The result object of `recommend_events`. -/
structure RecResult where
  events : List Val
  source : String

def MAX_RECOMMENDATIONS : Nat := 10
def MAX_CANDIDATES : Nat := 100

/-- The candidate pool of line 173. -/
def upcomingPool (w : World) : List Entries :=
  get_upcoming_events w.nowFetch w.eventsColl MAX_CANDIDATES w.eventsError

/-- The defensive re-filter of line 182: keep events whose parsed date — with
an unparsable date standing in for now itself — is at least now. -/
def filteredCandidates (w : World) : List Entries :=
  (upcomingPool w).filter (fun e => decide (w.now ≤ (parseEventDate e).getD w.now))

/-- Line 177: the profile is only fetched for a truthy user id. -/
def fetchedProfile (w : World) (user_id : Option String) : Option Entries :=
  match user_id with
  | some uid => if uid == "" then none else get_user_interest_profile w.profileStore uid
  | none => none

/-- The analytics mapping of line 178, fetched for the pool's truthy ids. -/
def poolAnalytics (w : World) : List (String × Entries) :=
  get_event_analytics w.analyticsStore (candidateIds (upcomingPool w))

/-- The common tail of both strategy branches (lines 215–220): sort, truncate
to the requested limit, serialize each retained event, tag with the source. -/
def finishBranch (scored : List (Entries × ℚ)) (source : String) (limit : Nat) : RecResult :=
  ⟨((rankScored scored).take limit).map (fun p => outputEvent p.1), source⟩

/-- Embedding of `recommend_events` (lines 166–221). -/
def recommend_events (w : World) (user_id : Option String) (limit : Nat) : RecResult :=
  if (upcomingPool w).isEmpty then ⟨[], "none"⟩
  else
    match fetchedProfile w user_id with
    | some p =>
      if truthy (pyGet p "topCategories") || truthy (pyGet p "topCities") then
        finishBranch
          ((filteredCandidates w).map (fun e => (e, score_event_with_profile e p)))
          "personalized" limit
      else
        finishBranch
          ((filteredCandidates w).map (fun e => (e, score_event_trending e (poolAnalytics w))))
          "trending" limit
    | none =>
      finishBranch
        ((filteredCandidates w).map (fun e => (e, score_event_trending e (poolAnalytics w))))
        "trending" limit

/-- The entries of a dict value (the shape of every returned event). -/
def dictEntries : Val → Entries
  | .dict kvs => kvs
  | _ => []

/-! ### Basic lemmas about lookups, serialization and the id merge -/

theorem replicate_all_beq (n : Nat) (c : Char) :
    (List.replicate n c).all (fun x => x == c) = true := by
  simp [List.all_eq_true, List.mem_replicate]

/-- The ISO codec round trip: parsing a rendered instant recovers it. -/
theorem parseIso_isoformat (t : Int) : parseIso (isoformat t) = some t := by
  cases t with
  | ofNat n =>
    cases n with
    | zero => rfl
    | succ m =>
      simp [isoformat, parseIso, List.replicate_succ, replicate_all_beq]
  | negSucc n =>
    simp [isoformat, parseIso, replicate_all_beq]

theorem lookup_serializeEntries (k : String) (e : Entries) :
    List.lookup k (serializeEntries e) = (List.lookup k e).map serialize_value := by
  induction e with
  | nil => rfl
  | cons kv rest ih =>
    obtain ⟨k1, v1⟩ := kv
    cases h : k == k1 <;> simp [serializeEntries, List.lookup, h, ih]

theorem serializeEntries_eq_map (e : Entries) :
    serializeEntries e = e.map (fun kv => (kv.1, serialize_value kv.2)) := by
  induction e with
  | nil => rfl
  | cons kv rest ih => obtain ⟨k1, v1⟩ := kv; simp [serializeEntries, ih]

theorem serializeList_eq_map (xs : List Val) :
    serializeList xs = xs.map serialize_value := by
  induction xs with
  | nil => rfl
  | cons v rest ih => simp [serializeList, ih]

/-- Only a stored boolean serializes to a boolean. -/
theorem eq_b_of_serialize {v : Val} {x : Bool} (h : serialize_value v = .b x) : v = .b x := by
  cases v <;> simp_all [serialize_value]

/-- Serialization does not change what the date parser sees: unparseable
values stay unparseable and a rendered instant parses back to itself. -/
theorem parseEventDate_serializeEntries (e : Entries) :
    parseEventDate (serializeEntries e) = parseEventDate e := by
  unfold parseEventDate
  rw [lookup_serializeEntries]
  cases h : List.lookup "date" e with
  | none => rfl
  | some v => cases v <;> simp [serialize_value, parseIso_isoformat]

theorem lookup_filter_of_key (p : String × Val → Bool) (k : String) (e : Entries)
    (hp : ∀ v, p (k, v) = true) :
    List.lookup k (e.filter p) = List.lookup k e := by
  induction e with
  | nil => rfl
  | cons kv rest ih =>
    obtain ⟨k1, v1⟩ := kv
    cases hk : k == k1 with
    | true =>
      have hkk : k = k1 := by simpa using hk
      subst hkk
      rw [List.filter_cons, if_pos (hp v1)]
      simp [List.lookup]
    | false =>
      rw [List.filter_cons]
      cases hpv : p (k1, v1) with
      | true => simp [List.lookup, hk, ih]
      | false => simp [List.lookup, hk, ih]

theorem lookup_mergeIdData_of_ne (i : String) (data : Entries) (k : String) (hk : k ≠ "id") :
    List.lookup k (mergeIdData i data) = List.lookup k data := by
  unfold mergeIdData
  have hbeq : (k == "id") = false := by simpa using hk
  rw [List.lookup, hbeq]
  exact lookup_filter_of_key _ k data (fun v => by simpa using hk)

theorem lookup_mergeIdData_id (i : String) (data : Entries) :
    List.lookup "id" (mergeIdData i data) = some ((List.lookup "id" data).getD (.s i)) := rfl

/-- The line-218 id reset is the identity on events built by the line-113
merge. -/
theorem resetId_mergeIdData (i : String) (data : Entries) :
    resetId (mergeIdData i data) = mergeIdData i data := by
  unfold resetId
  rw [if_pos (by simp [mergeIdData])]
  rw [lookup_mergeIdData_id]
  unfold mergeIdData
  simp only [List.map_cons, Option.getD_some]
  congr 1
  apply (List.map_congr_left ?_).trans (List.map_id _)
  intro kv hkv
  have hne : kv.1 ≠ "id" := by simpa using List.of_mem_filter hkv
  simp [hne]

theorem mem_of_lookup_eq_some {k : String} {v : Val} :
    ∀ {l : Entries}, List.lookup k l = some v → (k, v) ∈ l := by
  intro l
  induction l with
  | nil => intro h; cases h
  | cons kv rest ih =>
    obtain ⟨k1, v1⟩ := kv
    intro h
    cases hk : k == k1 with
    | true =>
      rw [List.lookup, hk] at h
      cases h
      have : k = k1 := by simpa using hk
      subst this
      exact List.mem_cons_self _ _
    | false =>
      rw [List.lookup, hk] at h
      exact List.mem_cons_of_mem _ (ih h)

/-! ### Idempotence of the value serializer -/

mutual
theorem serialize_value_idem : ∀ v, serialize_value (serialize_value v) = serialize_value v
  | .null => rfl
  | .b _ => rfl
  | .num _ => rfl
  | .s _ => rfl
  | .time _ => rfl
  | .dict kvs => by simp [serialize_value, serializeEntries_idem kvs]
  | .arr xs => by simp [serialize_value, serializeList_idem xs]

theorem serializeEntries_idem :
    ∀ kvs, serializeEntries (serializeEntries kvs) = serializeEntries kvs
  | [] => rfl
  | (k, v) :: rest => by
    simp [serializeEntries, serialize_value_idem v, serializeEntries_idem rest]

theorem serializeList_idem : ∀ xs, serializeList (serializeList xs) = serializeList xs
  | [] => rfl
  | v :: rest => by simp [serializeList, serialize_value_idem v, serializeList_idem rest]
end

/-! ### The sort comparator -/

theorem rankLE_iff (a bv : Entries × ℚ) :
    rankLE a bv = true ↔ bv.2 < a.2 ∨ (a.2 = bv.2 ∧ tsOf a.1 ≤ tsOf bv.1) := by
  simp [rankLE]

theorem rankLE_trans (a bv c : Entries × ℚ)
    (h1 : rankLE a bv) (h2 : rankLE bv c) : rankLE a c := by
  rw [rankLE_iff] at h1 h2 ⊢
  rcases h1 with h1 | ⟨h1e, h1t⟩ <;> rcases h2 with h2 | ⟨h2e, h2t⟩
  · exact Or.inl (h2.trans h1)
  · exact Or.inl (h2e ▸ h1)
  · exact Or.inl (h1e ▸ h2)
  · exact Or.inr ⟨h1e.trans h2e, h1t.trans h2t⟩

theorem rankLE_total (a bv : Entries × ℚ) : rankLE a bv || rankLE bv a := by
  rcases lt_trichotomy a.2 bv.2 with h | h | h
  · simp [rankLE_iff, h]
  · rcases le_total (tsOf a.1) (tsOf bv.1) with ht | ht
    · simp [rankLE_iff, h, ht]
    · simp [rankLE_iff, h.symm, ht]
  · simp [rankLE_iff, h]

instance : IsTotal (Entries × ℚ) RankBefore :=
  ⟨fun a bv => by
    have h := rankLE_total a bv
    rcases Bool.or_eq_true _ _ ▸ h with h1 | h1
    · exact Or.inl h1
    · exact Or.inr h1⟩

instance : IsTrans (Entries × ℚ) RankBefore := ⟨rankLE_trans⟩

/-! ### Concrete inputs used by the spec's scenarios and the witnesses -/

/-- The spec's scoring-scenario event. -/
def scenarioEvent : Entries :=
  [("id", .s "e1"), ("category", .s "music"), ("city", .s "Kinshasa"), ("price", .num 0)]

/-- The spec's scoring-scenario profile. -/
def scenarioProfile : Entries :=
  [("topCategories", .dict [("music", .num 3)]), ("topCities", .dict [("Kinshasa", .num 2)]),
   ("pricePreference", .s "free")]

/-- The spec's trending-scenario analytics payload. -/
def trendScenarioA : Entries :=
  [("views", .num 10), ("favorites", .num 5), ("shares", .num 2),
   ("conversionRate", .num (3/10))]

def trendScenarioEvent : Entries := [("id", .s "e1")]

def trendScenarioAnalytics : List (String × Entries) := [("e1", trendScenarioA)]

/-- An eligible stored event document. -/
def docW : EventDoc := ⟨"e1", some [("status", .s "active")]⟩

/-- A world with one eligible event and no profile or analytics data. -/
def baseWorld : World := ⟨[docW], none, fun _ => .missing, fun _ => .missing, 0, 0⟩

/-- A world with one eligible event and the scenario profile stored. -/
def profWorld : World := ⟨[docW], none, fun _ => .found scenarioProfile, fun _ => .missing, 0, 0⟩

/-- A world whose events collection is empty. -/
def emptyWorld : World := ⟨[], none, fun _ => .missing, fun _ => .missing, 0, 0⟩

/-! ### Claim theorems -/

/-- C9: the value serializer is idempotent — serializing the result of
serialization returns it unchanged — it maps a mapping to a mapping with the
same keys and recursively serialized values, a list elementwise, and leaves
null and the non-timestamp scalars (booleans, numbers, strings) unchanged. -/
theorem serializer_spec :
    (∀ v, serialize_value (serialize_value v) = serialize_value v) ∧
    (∀ kvs : Entries,
      serialize_value (.dict kvs) = .dict (kvs.map (fun kv => (kv.1, serialize_value kv.2)))) ∧
    (∀ xs : List Val, serialize_value (.arr xs) = .arr (xs.map serialize_value)) ∧
    serialize_value .null = .null ∧
    (∀ x, serialize_value (.b x) = .b x) ∧
    (∀ x, serialize_value (.num x) = .num x) ∧
    (∀ x, serialize_value (.s x) = .s x) := by
  refine ⟨serialize_value_idem, ?_, ?_, rfl, fun _ => rfl, fun _ => rfl, fun _ => rfl⟩
  · intro kvs; simp [serialize_value, serializeEntries_eq_map]
  · intro xs; simp [serialize_value, serializeList_eq_map]

/-- C3: the ranking step returns a permutation of the scored candidates
ordered by score descending with ties broken by event date ascending, where
an event with no parsable date carries ranking timestamp positive infinity
(`tsOf` is ⊤ exactly on unparsable dates): in any tie the earlier-placed
element has a timestamp no later than the later-placed one, so an undated
element never precedes a dated one at equal score — equivalently (third
conjunct), once a tied element is undated every tied element after it is
undated too. -/
theorem ranking_order_spec (scored : List (Entries × ℚ)) :
    (rankScored scored).Perm scored ∧
    (rankScored scored).Pairwise
      (fun x y => y.2 < x.2 ∨ (x.2 = y.2 ∧ tsOf x.1 ≤ tsOf y.1)) ∧
    (rankScored scored).Pairwise
      (fun x y => x.2 = y.2 → parseEventDate x.1 = none → parseEventDate y.1 = none) := by
  have hsorted : (rankScored scored).Pairwise RankBefore :=
    List.sorted_insertionSort RankBefore scored
  refine ⟨List.perm_insertionSort RankBefore scored,
    hsorted.imp (fun hab => (rankLE_iff _ _).mp hab), hsorted.imp ?_⟩
  intro a c hab heq hx
  rcases (rankLE_iff _ _).mp hab with h | ⟨_, ht⟩
  · exact absurd (heq ▸ h) (lt_irrefl _)
  · have htop : tsOf c.1 = ⊤ := top_le_iff.mp (by simpa [tsOf, hx] using ht)
    cases hy : parseEventDate c.1 with
    | none => rfl
    | some t => simp [tsOf, hy] at htop

/-- C7: an empty candidate pool yields exactly the empty result tagged
source "none", returned as a normal value. -/
theorem empty_pool_spec (w : World) (user_id : Option String) (limit : Nat)
    (h : upcomingPool w = []) :
    recommend_events w user_id limit = ⟨[], "none"⟩ := by
  unfold recommend_events
  rw [h]
  rfl

theorem empty_pool_spec_witness :
    upcomingPool emptyWorld = [] ∧
    recommend_events emptyWorld (some "u") 10 = ⟨[], "none"⟩ :=
  ⟨rfl, empty_pool_spec emptyWorld (some "u") 10 rfl⟩

/-- C5: the trending score is 0 when the event has no usable identifier (a
falsy or non-string id), when no analytics entry exists for it (including a
falsy entry), and otherwise is
views·0.1 + favorites·2 + shares·1.5 + conversionRate·10 with absent fields
defaulting to 0; the spec's scenario analytics score 17.0 and an empty
analytics mapping scores 0 for every event. -/
theorem trending_score_spec (e : Entries) (analytics : List (String × Entries)) :
    (¬ truthy (pyGet e "id") → score_event_trending e analytics = 0) ∧
    ((∀ sid, pyGet e "id" ≠ .s sid) → score_event_trending e analytics = 0) ∧
    (∀ sid, pyGet e "id" = .s sid → List.lookup sid analytics = none →
      score_event_trending e analytics = 0) ∧
    (∀ sid, pyGet e "id" = .s sid → List.lookup sid analytics = some [] →
      score_event_trending e analytics = 0) ∧
    (∀ sid a, pyGet e "id" = .s sid → sid ≠ "" → List.lookup sid analytics = some a →
      a ≠ [] →
      score_event_trending e analytics =
        getNum a "views" * (1/10) + getNum a "favorites" * 2 +
          getNum a "shares" * (3/2) + getNum a "conversionRate" * 10) ∧
    score_event_trending e [] = 0 ∧
    score_event_trending trendScenarioEvent trendScenarioAnalytics = 17 := by
  refine ⟨?_, ?_, ?_, ?_, ?_, ?_, by
    simp [score_event_trending, trendScenarioEvent, trendScenarioAnalytics, trendScenarioA,
      pyGet, truthy, getNum, valFloat, List.lookup]
    norm_num⟩
  · intro h
    have hb : truthy (pyGet e "id") = false := by simpa using h
    simp [score_event_trending, hb]
  · intro hns
    cases h : pyGet e "id" with
    | s sid => exact absurd h (hns sid)
    | null => simp [score_event_trending, h]
    | b x => simp [score_event_trending, h, truthy]
    | num x => simp [score_event_trending, h, truthy]
    | time t => simp [score_event_trending, h, truthy]
    | dict dd => simp [score_event_trending, h, truthy]
    | arr xs => simp [score_event_trending, h, truthy]
  · intro sid hsid hnone
    cases htr : truthy (Val.s sid) with
    | false => simp [score_event_trending, hsid, htr]
    | true => simp [score_event_trending, hsid, htr, hnone]
  · intro sid hsid hemp
    cases htr : truthy (Val.s sid) with
    | false => simp [score_event_trending, hsid, htr]
    | true => simp [score_event_trending, hsid, htr, hemp]
  · intro sid a hsid hne hsome hane
    have htr : truthy (Val.s sid) = true := by simpa [truthy] using hne
    have hemp : a.isEmpty = false := by simpa [List.isEmpty_iff] using hane
    simp [score_event_trending, hsid, htr, hsome, hemp]
  · cases h : pyGet e "id" <;> simp [score_event_trending, h, List.lookup]

theorem trending_score_spec_witness :
    score_event_trending trendScenarioEvent trendScenarioAnalytics =
      getNum trendScenarioA "views" * (1/10) + getNum trendScenarioA "favorites" * 2 +
        getNum trendScenarioA "shares" * (3/2) + getNum trendScenarioA "conversionRate" * 10 :=
  (trending_score_spec trendScenarioEvent trendScenarioAnalytics).2.2.2.2.1 "e1" trendScenarioA
    rfl (by decide) rfl (by simp [trendScenarioA])

/-- C4: the personalized score is the sum of the category, city and price
terms — category from "category" with falsy-fallback "categoryName", city
from "city" with the comma-prefix-of-location fallback, and a +5 / +2 price
bonus for a matching free/paid preference on a non-null price — each term
non-negative whenever the stored affinity weights are non-negative, 0 when
nothing applies, and the spec's scenario scores 3 + 2 + 5 = 10. -/
theorem personalized_score_spec (event profile : Entries)
    (hcat : ∀ kv ∈ getDict profile "topCategories", 0 ≤ valFloat kv.2)
    (hcity : ∀ kv ∈ getDict profile "topCities", 0 ≤ valFloat kv.2) :
    score_event_with_profile event profile =
      catTerm event profile + cityTerm event profile + priceTerm event profile ∧
    0 ≤ catTerm event profile ∧ 0 ≤ cityTerm event profile ∧
    0 ≤ priceTerm event profile ∧
    score_event_with_profile scenarioEvent scenarioProfile = 10 := by
  refine ⟨rfl, ?_, ?_, ?_, by
    simp [score_event_with_profile, catTerm, cityTerm, priceTerm, scenarioEvent,
      scenarioProfile, pyGet, pyOr, truthy, getDict, valFloat, pyEqZero, freeTierZero,
      cityVal, locationCity, List.lookup]
    norm_num⟩
  · cases h : pyOr (pyGet event "category") (pyGet event "categoryName") with
    | s c =>
      cases ht : truthy (Val.s c) with
      | true =>
        cases hl : List.lookup c (getDict profile "topCategories") with
        | some v =>
          have := hcat (c, v) (mem_of_lookup_eq_some hl)
          simpa [catTerm, h, ht, hl] using this
        | none => simp [catTerm, h, ht, hl]
      | false => simp [catTerm, h, ht]
    | null => simp [catTerm, h]
    | b x => simp [catTerm, h]
    | num x => simp [catTerm, h]
    | time t => simp [catTerm, h]
    | dict d => simp [catTerm, h]
    | arr l => simp [catTerm, h]
  · cases h : cityVal event with
    | s c =>
      cases ht : truthy (Val.s c) with
      | true =>
        cases hl : List.lookup c (getDict profile "topCities") with
        | some v =>
          have := hcity (c, v) (mem_of_lookup_eq_some hl)
          simpa [cityTerm, h, ht, hl] using this
        | none => simp [cityTerm, h, ht, hl]
      | false => simp [cityTerm, h, ht]
    | null => simp [cityTerm, h]
    | b x => simp [cityTerm, h]
    | num x => simp [cityTerm, h]
    | time t => simp [cityTerm, h]
    | dict d => simp [cityTerm, h]
    | arr l => simp [cityTerm, h]
  · unfold priceTerm
    repeat' split
    all_goals norm_num

theorem personalized_score_spec_witness :
    score_event_with_profile scenarioEvent scenarioProfile = 10 :=
  (personalized_score_spec scenarioEvent scenarioProfile (by decide) (by decide)).2.2.2.2

/-- A profile field that counts as absent-or-empty: missing, None, or an
empty mapping. -/
def emptyMapField (v : Option Val) : Prop :=
  v = none ∨ v = some .null ∨ v = some (.dict [])

/-- C1: with a non-empty candidate pool, the result's source is
"personalized" when the fetched profile exists and its topCategories or
topCities is a non-empty mapping, and "trending" when no profile was fetched
(no user id, missing document, empty document, or fetch error) or the fetched
profile's topCategories and topCities are both absent-or-empty — in
particular when its only non-empty field is pricePreference. -/
theorem strategy_selection_spec (w : World) (user_id : Option String) (limit : Nat)
    (hne : upcomingPool w ≠ []) :
    (∀ p, fetchedProfile w user_id = some p →
      ((∃ d, List.lookup "topCategories" p = some (.dict d) ∧ d ≠ []) ∨
       (∃ d, List.lookup "topCities" p = some (.dict d) ∧ d ≠ [])) →
      (recommend_events w user_id limit).source = "personalized") ∧
    ((fetchedProfile w user_id = none ∨
      (∃ p, fetchedProfile w user_id = some p ∧
        emptyMapField (List.lookup "topCategories" p) ∧
        emptyMapField (List.lookup "topCities" p))) →
      (recommend_events w user_id limit).source = "trending") := by
  have hie : (upcomingPool w).isEmpty = false := by
    cases hp : upcomingPool w with
    | nil => exact absurd hp hne
    | cons a l => rfl
  constructor
  · intro p hp hcond
    have hcond2 : (truthy (pyGet p "topCategories") || truthy (pyGet p "topCities")) = true := by
      rcases hcond with ⟨d, hd, hdne⟩ | ⟨d, hd, hdne⟩
      · have h1 : pyGet p "topCategories" = .dict d := by simp [pyGet, hd]
        have h2 : truthy (Val.dict d) = true := by
          cases d with
          | nil => exact absurd rfl hdne
          | cons x xs => rfl
        simp [h1, h2]
      · have h1 : pyGet p "topCities" = .dict d := by simp [pyGet, hd]
        have h2 : truthy (Val.dict d) = true := by
          cases d with
          | nil => exact absurd rfl hdne
          | cons x xs => rfl
        simp [h1, h2]
    simp [recommend_events, hie, hp, hcond2, finishBranch]
  · intro hcase
    rcases hcase with hnone | ⟨p, hp, he1, he2⟩
    · simp [recommend_events, hie, hnone, finishBranch]
    · have h1 : truthy (pyGet p "topCategories") = false := by
        rcases he1 with h | h | h <;> simp [pyGet, h, truthy]
      have h2 : truthy (pyGet p "topCities") = false := by
        rcases he2 with h | h | h <;> simp [pyGet, h, truthy]
      simp [recommend_events, hie, hp, h1, h2, finishBranch]

theorem strategy_selection_spec_witness :
    (recommend_events profWorld (some "u") 10).source = "personalized" := by
  have hpool : upcomingPool profWorld = [mergeIdData "e1" [("status", Val.s "active")]] := rfl
  have hne : upcomingPool profWorld ≠ [] := by
    rw [hpool]; exact List.cons_ne_nil _ _
  exact (strategy_selection_spec profWorld (some "u") 10 hne).1 scenarioProfile rfl
    (Or.inl ⟨[("music", Val.num 3)], rfl, List.cons_ne_nil _ _⟩)

theorem finishBranch_length (scored : List (Entries × ℚ)) (src : String) (limit : Nat) :
    (finishBranch scored src limit).events.length = min limit scored.length := by
  simp [finishBranch, rankScored, List.length_take, List.length_insertionSort]

/-- C6: the returned events list never exceeds the requested limit, never
exceeds the number of filtered candidates, and the filtered-candidate count
is itself bounded by the internal 100-candidate cap. -/
theorem result_length_spec (w : World) (user_id : Option String) (limit : Nat) :
    (recommend_events w user_id limit).events.length ≤ limit ∧
    (recommend_events w user_id limit).events.length ≤ (filteredCandidates w).length ∧
    (filteredCandidates w).length ≤ MAX_CANDIDATES := by
  have hcap : (filteredCandidates w).length ≤ MAX_CANDIDATES := by
    have h1 : (filteredCandidates w).length ≤ (upcomingPool w).length :=
      List.length_filter_le _ _
    have h2 : (upcomingPool w).length ≤
        (streamSeen w.eventsColl MAX_CANDIDATES w.eventsError).length :=
      List.length_filterMap_le _ _
    have h3 : (streamSeen w.eventsColl MAX_CANDIDATES w.eventsError).length ≤
        MAX_CANDIDATES := by
      unfold streamSeen
      cases w.eventsError with
      | none => simp [List.length_take]
      | some k => simp [List.length_take]
    omega
  have hlen : (recommend_events w user_id limit).events.length = 0 ∨
      (recommend_events w user_id limit).events.length =
        min limit (filteredCandidates w).length := by
    unfold recommend_events
    split
    · exact Or.inl rfl
    · split
      · split
        · exact Or.inr (by simp [finishBranch_length])
        · exact Or.inr (by simp [finishBranch_length])
      · exact Or.inr (by simp [finishBranch_length])
  refine ⟨?_, ?_, hcap⟩ <;> rcases hlen with h | h <;> rw [h] <;> omega

/-! ### Tracing a returned event back through the pipeline -/

theorem processDoc_eq_some {now : Int} {d : EventDoc} {e : Entries}
    (h : processDoc now d = some e) :
    ∃ data, d.data = some data ∧ isPublicFalse data = false ∧ e = mergeIdData d.id data := by
  unfold processDoc at h
  cases hd : d.data with
  | none => rw [hd] at h; cases h
  | some data =>
    rw [hd] at h
    by_cases hpub : isPublicFalse data = true
    · simp [hpub] at h
    · have hpub2 : isPublicFalse data = false := by simpa using hpub
      simp only [hpub2, Bool.false_eq_true, if_false] at h
      refine ⟨data, rfl, hpub2, ?_⟩
      cases hdt : parseEventDate data with
      | some t =>
        rw [hdt] at h
        by_cases hlt : t < now
        · simp [hlt] at h
        · simp [hlt] at h; exact h.symm
      | none => rw [hdt] at h; exact (Option.some.inj h).symm

theorem mem_upcomingPool {w : World} {e : Entries} (h : e ∈ upcomingPool w) :
    ∃ d data, statusActive d = true ∧ d.data = some data ∧
      isPublicFalse data = false ∧ e = mergeIdData d.id data := by
  unfold upcomingPool get_upcoming_events at h
  obtain ⟨d, hd, hproc⟩ := List.mem_filterMap.mp h
  have hdm : d ∈ w.eventsColl.filter statusActive := by
    unfold streamSeen at hd
    cases herr : w.eventsError with
    | none =>
      rw [herr] at hd
      exact List.mem_of_mem_take hd
    | some k =>
      rw [herr] at hd
      exact List.mem_of_mem_take (List.mem_of_mem_take hd)
  have hsa : statusActive d = true := (List.mem_filter.mp hdm).2
  obtain ⟨data, hdata, hpub, he⟩ := processDoc_eq_some hproc
  exact ⟨d, data, hsa, hdata, hpub, he⟩

theorem status_of_statusActive {d : EventDoc} {data : Entries}
    (hd : d.data = some data) (h : statusActive d = true) :
    List.lookup "status" data = some (.s "active") := by
  have h2 : (match List.lookup "status" data with
      | some (.s st) => st == "active"
      | _ => false) = true := by
    unfold statusActive at h
    rw [hd] at h
    exact h
  cases hl : List.lookup "status" data with
  | none => rw [hl] at h2; simp at h2
  | some v =>
    rw [hl] at h2
    cases v with
    | s st =>
      have hst : st = "active" := by simpa using h2
      rw [hst]
    | null => simp at h2
    | b x => simp at h2
    | num x => simp at h2
    | time t => simp at h2
    | dict dd => simp at h2
    | arr xs => simp at h2

theorem isPublic_ne_of_false {data : Entries} (h : isPublicFalse data = false) :
    List.lookup "isPublic" data ≠ some (.b false) := by
  intro hc
  unfold isPublicFalse at h
  rw [hc] at h
  simp at h

theorem mem_finishBranch_events {scored : List (Entries × ℚ)} {src : String} {limit : Nat}
    {ev : Val} (h : ev ∈ (finishBranch scored src limit).events) :
    ∃ p ∈ scored, ev = outputEvent p.1 := by
  unfold finishBranch at h
  simp only [List.mem_map] at h
  obtain ⟨p, hp, he⟩ := h
  refine ⟨p, ?_, he.symm⟩
  have hms : p ∈ rankScored scored := List.mem_of_mem_take hp
  exact (List.perm_insertionSort RankBefore scored).mem_iff.mp hms

theorem mem_scored_fst {f : Entries → ℚ} {l : List Entries} {p : Entries × ℚ}
    (hp : p ∈ l.map (fun e => (e, f e))) : p.1 ∈ l := by
  obtain ⟨e, he, hpe⟩ := List.mem_map.mp hp
  rw [← hpe]
  exact he

theorem mem_recommend_events {w : World} {user_id : Option String} {limit : Nat} {ev : Val}
    (h : ev ∈ (recommend_events w user_id limit).events) :
    ∃ e ∈ filteredCandidates w, ev = outputEvent e := by
  unfold recommend_events at h
  split at h
  · simp at h
  · split at h
    · split at h
      · obtain ⟨p, hps, hev⟩ := mem_finishBranch_events h
        exact ⟨p.1, mem_scored_fst hps, hev⟩
      · obtain ⟨p, hps, hev⟩ := mem_finishBranch_events h
        exact ⟨p.1, mem_scored_fst hps, hev⟩
    · obtain ⟨p, hps, hev⟩ := mem_finishBranch_events h
      exact ⟨p.1, mem_scored_fst hps, hev⟩

theorem mem_filteredCandidates {w : World} {e : Entries} (h : e ∈ filteredCandidates w) :
    e ∈ upcomingPool w ∧ ∀ t, parseEventDate e = some t → w.now ≤ t := by
  unfold filteredCandidates at h
  obtain ⟨hmem, hcond⟩ := List.mem_filter.mp h
  refine ⟨hmem, fun t ht => ?_⟩
  have hle := of_decide_eq_true hcond
  rw [ht] at hle
  simpa using hle

/-- C2: every event in the returned list has status "active", does not have
its visibility flag stored as an explicit False, and has a date that is
absent or unparseable (`parseEventDate` yields none) or an instant at least
the call's now (the instant captured at line 181). -/
theorem result_event_invariants (w : World) (user_id : Option String) (limit : Nat)
    (ev : Val) (hm : ev ∈ (recommend_events w user_id limit).events) :
    List.lookup "status" (dictEntries ev) = some (.s "active") ∧
    List.lookup "isPublic" (dictEntries ev) ≠ some (.b false) ∧
    (∀ t, parseEventDate (dictEntries ev) = some t → w.now ≤ t) := by
  obtain ⟨e, hef, hev⟩ := mem_recommend_events hm
  obtain ⟨hpool, hdate⟩ := mem_filteredCandidates hef
  obtain ⟨d, data, hsa, hdata, hpub, hedef⟩ := mem_upcomingPool hpool
  have hreset : resetId e = e := by rw [hedef]; exact resetId_mergeIdData _ _
  have hde : dictEntries ev = serializeEntries e := by
    rw [hev]
    show serializeEntries (resetId e) = serializeEntries e
    rw [hreset]
  refine ⟨?_, ?_, ?_⟩
  · rw [hde, lookup_serializeEntries, hedef,
      lookup_mergeIdData_of_ne _ _ _ (by decide),
      status_of_statusActive hdata hsa]
    rfl
  · rw [hde, lookup_serializeEntries]
    intro hc
    cases hl : List.lookup "isPublic" e with
    | none => rw [hl] at hc; cases hc
    | some v =>
      rw [hl] at hc
      have hv : v = Val.b false := eq_b_of_serialize (Option.some.inj hc)
      rw [hedef, lookup_mergeIdData_of_ne _ _ _ (by decide)] at hl
      exact isPublic_ne_of_false hpub (hv ▸ hl)
  · intro t ht
    rw [hde, parseEventDate_serializeEntries] at ht
    exact hdate t ht

theorem result_event_invariants_witness :
    List.lookup "status"
        (dictEntries (outputEvent (mergeIdData "e1" [("status", Val.s "active")]))) =
      some (Val.s "active") ∧
    List.lookup "isPublic"
        (dictEntries (outputEvent (mergeIdData "e1" [("status", Val.s "active")]))) ≠
      some (Val.b false) ∧
    (∀ t, parseEventDate
        (dictEntries (outputEvent (mergeIdData "e1" [("status", Val.s "active")]))) =
        some t → (baseWorld).now ≤ t) := by
  have hlist : (recommend_events baseWorld none 10).events =
      [outputEvent (mergeIdData "e1" [("status", Val.s "active")])] := rfl
  refine result_event_invariants baseWorld none 10 _ ?_
  rw [hlist]
  exact List.mem_singleton.mpr rfl

/-- The stored data of a document whose payload carries its own "id". -/
def dataW : Entries := [("id", .s "data-id"), ("status", .s "active")]

/-- A document whose store-assigned id differs from its payload's "id". -/
def docW2 : EventDoc := ⟨"store", some dataW⟩

/-- C10: a streamed document that passes the filters contributes the
id-merged payload to the retrieved pool, and that event's "id" is the
payload's own "id" value whenever the payload has one — the store-assigned
document id is only used when the payload has no "id" field.  The unused
`_serialize_doc` helper applies the same override to the serialized
payload. -/
theorem id_override_spec (now : Int) (coll : List EventDoc) (lim : Nat)
    (errorAfter : Option Nat) (d : EventDoc) (data : Entries)
    (hmem : d ∈ streamSeen coll lim errorAfter)
    (hdata : d.data = some data)
    (hpub : isPublicFalse data = false)
    (hdate : ∀ t, parseEventDate data = some t → ¬ t < now) :
    mergeIdData d.id data ∈ get_upcoming_events now coll lim errorAfter ∧
    (∀ v, List.lookup "id" data = some v →
      List.lookup "id" (mergeIdData d.id data) = some v) ∧
    (List.lookup "id" data = none →
      List.lookup "id" (mergeIdData d.id data) = some (.s d.id)) ∧
    List.lookup "id" ((serialize_doc true d.id (some data)).getD []) =
      some ((List.lookup "id" (serializeEntries data)).getD (.s d.id)) := by
  have hproc : processDoc now d = some (mergeIdData d.id data) := by
    unfold processDoc
    rw [hdata]
    cases hdt : parseEventDate data with
    | some t => simp [hpub, hdt, hdate t hdt]
    | none => simp [hpub, hdt]
  refine ⟨List.mem_filterMap.mpr ⟨d, hmem, hproc⟩, ?_, ?_, ?_⟩
  · intro v hv
    rw [lookup_mergeIdData_id, hv]
    rfl
  · intro hnone
    rw [lookup_mergeIdData_id, hnone]
    rfl
  · show List.lookup "id" ((some (mergeIdData d.id (serializeEntries data))).getD []) = _
    rw [Option.getD_some, lookup_mergeIdData_id]

theorem id_override_spec_witness :
    mergeIdData "store" dataW ∈ get_upcoming_events 0 [docW2] 100 none ∧
    List.lookup "id" (mergeIdData "store" dataW) = some (Val.s "data-id") := by
  have h := id_override_spec 0 [docW2] 100 none docW2 dataW
    (by rw [show streamSeen [docW2] 100 none = [docW2] from rfl]
        exact List.mem_singleton.mpr rfl)
    rfl rfl (fun t ht => nomatch ht)
  exact ⟨h.1, h.2.1 (Val.s "data-id") rfl⟩

/-- C8 counterexample: when the store raises after yielding one acceptable
document, `get_upcoming_events` does not return an empty list — it returns
the event accepted before the error. -/
theorem retrieval_error_counterexample :
    get_upcoming_events 0 [docW] 100 (some 1) ≠ [] := by
  rw [show get_upcoming_events 0 [docW] 100 (some 1) =
      [mergeIdData "e1" [("status", Val.s "active")]] from rfl]
  exact List.cons_ne_nil _ _

/-- C8 (amended): when the store raises at any point of the events stream the
function still returns normally (the exception is swallowed), returning
exactly the events accepted from the prefix streamed before the error — a
prefix of the error-free result — and in particular the empty list when the
error occurs before any document was accepted. -/
theorem retrieval_error_spec (now : Int) (coll : List EventDoc) (lim : Nat) (k : Nat) :
    (∃ rest, get_upcoming_events now coll lim none =
      get_upcoming_events now coll lim (some k) ++ rest) ∧
    get_upcoming_events now coll lim (some 0) = [] := by
  constructor
  · refine ⟨(((coll.filter statusActive).take lim).drop k).filterMap (processDoc now), ?_⟩
    unfold get_upcoming_events streamSeen
    rw [← List.filterMap_append, List.take_append_drop]
  · unfold get_upcoming_events streamSeen
    simp

end ContentService
